import Mathlib

/-!
Shallow embedding of the `csrank` preference-learning library (FETA choice
networks, the FATE linear core, the pairwise SVM core and the random
discrete-choice baseline), together with proofs of the specified properties.

Machine floating-point arithmetic is modelled by real numbers; numpy arrays
are modelled by (nested) lists; the stateful numpy pseudo-random generator is
modelled by explicitly threaded state; Python exceptions are modelled by
`Except` / explicit outcome fields.
-/

namespace CSRank

/-- Modelled from the spec: the logistic squashing function (the source's
`csrank.numpy_util.sigmoid` helper is not part of the excerpt); the spec
describes it as the logistic function producing a utility in (0,1). -/
noncomputable def sigmoid (x : ℝ) : ℝ := 1 / (1 + Real.exp (-x))

lemma one_add_exp_pos (x : ℝ) : 0 < 1 + Real.exp (-x) := by
  have h := Real.exp_pos (-x); linarith

lemma sigmoid_pos (x : ℝ) : 0 < sigmoid x := by
  unfold sigmoid
  exact div_pos one_pos (one_add_exp_pos x)

lemma sigmoid_lt_one (x : ℝ) : sigmoid x < 1 := by
  unfold sigmoid
  rw [div_lt_one (one_add_exp_pos x)]
  have h := Real.exp_pos (-x); linarith

/-- Mean of a list of reals, as computed by `K.mean` on a vector
(sum divided by length). -/
noncomputable def listMean (l : List ℝ) : ℝ := l.sum / l.length

/-- Dot product of two equally long real vectors (`np.dot` on the last axis). -/
def dotList (xs ws : List ℝ) : ℝ := (List.zipWith (fun a b => a * b) xs ws).sum

/-! ## FETAChoiceFunction.construct_model (feta_choice.py, lines 170-245)

The keras graph built by `construct_model` is embedded value-level: the shared
hidden-layer stack and the single linear output node are abstracted as
functions `h : List ℝ → List ℝ` and `out : List ℝ → ℝ` (they are weight-shared
keras layers, applied identically to every pair and both orders), and the
query is a family `X : ℕ → List ℝ` of object feature vectors. -/

/-- The list of index pairs enumerated by `itertools.combinations(range(n), 2)`:
all `(i, j)` with `i < j < n`, in lexicographic order. -/
def combinations2 (n : ℕ) : List (ℕ × ℕ) :=
  ((List.range n).product (List.range n)).filter fun p => p.1 < p.2

/-- The directional score `N_g` produced for the ordered pair `(i, j)` in
`construct_model`: both concatenation orders of the two feature vectors are
pushed through the shared hidden stack `h`, the two hidden representations are
concatenated (pair order first) and fed to the shared linear output node
`out`.  The score `N_l` of the same loop iteration equals `pairScore ... j i`. -/
def pairScore (h : List ℝ → List ℝ) (out : List ℝ → ℝ) (X : ℕ → List ℝ)
    (i j : ℕ) : ℝ :=
  out (h (X i ++ X j) ++ h (X j ++ X i))

/-- Row `k` of the pairwise score collection built by the `combinations` loop
of `construct_model`: for every enumerated pair `(i, j)` with `i < j`,
`outputs[i]` receives the directional score `U1 i j` (the layer `N_g`) and
`outputs[j]` receives `U1 j i` (the layer `N_l`), in loop order. -/
def fetaRow (n : ℕ) (U1 : ℕ → ℕ → ℝ) (k : ℕ) : List ℝ :=
  (combinations2 n).filterMap fun p =>
    if p.1 = k then some (U1 p.1 p.2)
    else if p.2 = k then some (U1 p.2 p.1) else none

/-- The zeroth-order utility `U_0(x_k)`: the object's feature vector pushed
through the dedicated shared hidden stack `h0` and linear output node `out0`. -/
def zerothScore (h0 : List ℝ → List ℝ) (out0 : List ℝ → ℝ) (X : ℕ → List ℝ)
    (k : ℕ) : ℝ :=
  out0 (h0 (X k))

/-- Utility score of object `k` in the model returned by
`FETAChoiceFunction.construct_model`: the mean of row `k` of the pairwise
scores, plus the zeroth-order score when `add_zeroth_order_model` is set
(`add([scores, zeroth_order_scores])`), squashed by the final
`Activation("sigmoid")` layer. -/
noncomputable def construct_model_score (n : ℕ) (add0 : Bool)
    (h : List ℝ → List ℝ) (out : List ℝ → ℝ)
    (h0 : List ℝ → List ℝ) (out0 : List ℝ → ℝ)
    (X : ℕ → List ℝ) (k : ℕ) : ℝ :=
  sigmoid (listMean (fetaRow n (pairScore h out X) k) +
    (if add0 then zerothScore h0 out0 X k else 0))

/-! ### Characterisation of the combinations list and of row `k` -/

lemma mem_combinations2 {n : ℕ} {p : ℕ × ℕ} :
    p ∈ combinations2 n ↔ p.1 < p.2 ∧ p.2 < n := by
  unfold combinations2
  rcases p with ⟨a, b⟩
  simp only [List.mem_filter, List.pair_mem_product, List.mem_range,
    decide_eq_true_eq]
  constructor
  · rintro ⟨⟨_, hb⟩, hab⟩; exact ⟨hab, hb⟩
  · rintro ⟨hab, hb⟩; exact ⟨⟨lt_trans hab hb, hb⟩, hab⟩

lemma combinations2_nodup (n : ℕ) : (combinations2 n).Nodup :=
  (List.Nodup.product (List.nodup_range n) (List.nodup_range n)).filter _

/-- The finite set of index pairs evaluated by the pair loop. -/
def pairFinset (n : ℕ) : Finset (ℕ × ℕ) :=
  (Finset.range n ×ˢ Finset.range n).filter fun p => p.1 < p.2

lemma combinations2_toFinset (n : ℕ) :
    (combinations2 n).toFinset = pairFinset n := by
  ext p
  rcases p with ⟨a, b⟩
  simp only [List.mem_toFinset, mem_combinations2, pairFinset,
    Finset.mem_filter, Finset.mem_product, Finset.mem_range]
  constructor
  · rintro ⟨hab, hb⟩; exact ⟨⟨lt_trans hab hb, hb⟩, hab⟩
  · rintro ⟨⟨_, hb⟩, hab⟩; exact ⟨hab, hb⟩

lemma sum_filterMap_eq {α : Type} (g : α → Option ℝ) (l : List α) :
    (l.filterMap g).sum = (l.map fun a => (g a).getD 0).sum := by
  induction l with
  | nil => simp
  | cons a l ih =>
      cases h : g a <;>
        simp [List.filterMap_cons, h, ih]

lemma length_filterMap_eq {α : Type} (g : α → Option ℝ) (l : List α) :
    (l.filterMap g).length = (l.filter fun a => (g a).isSome).length := by
  induction l with
  | nil => simp
  | cons a l ih =>
      cases h : g a <;>
        simp [List.filterMap_cons, h, List.filter_cons, ih]

/-- The set of evaluated pairs that contribute a directional score to row `k`. -/
def rowPairs (n k : ℕ) : Finset (ℕ × ℕ) :=
  (pairFinset n).filter fun p => p.1 = k ∨ p.2 = k

/-- The pair a partner object `j` forms with object `k` in the loop's
enumeration (`(j, k)` when `j < k`, else `(k, j)`). -/
def partnerPair (k j : ℕ) : ℕ × ℕ := if j < k then (j, k) else (k, j)

lemma partnerPair_image {n k : ℕ} (hk : k < n) :
    ((Finset.range n).erase k).image (partnerPair k) = rowPairs n k := by
  ext p
  rcases p with ⟨a, b⟩
  simp only [Finset.mem_image, rowPairs, pairFinset, Finset.mem_filter,
    Finset.mem_product, Finset.mem_range]
  constructor
  · rintro ⟨j, hj, hp⟩
    simp only [Finset.mem_erase, Finset.mem_range] at hj
    unfold partnerPair at hp
    split_ifs at hp with hlt <;>
      · simp only [Prod.mk.injEq] at hp
        exact ⟨⟨⟨by omega, by omega⟩, by omega⟩, by omega⟩
  · rintro ⟨⟨⟨han, hbn⟩, hab⟩, hor⟩
    rcases hor with h | h
    · refine ⟨b, ?_, ?_⟩
      · simp only [Finset.mem_erase, Finset.mem_range]; omega
      · unfold partnerPair
        rw [if_neg (by omega), h]
    · refine ⟨a, ?_, ?_⟩
      · simp only [Finset.mem_erase, Finset.mem_range]; omega
      · unfold partnerPair
        rw [if_pos (by omega), h]

lemma partnerPair_injOn {n k : ℕ} :
    Set.InjOn (partnerPair k) ((Finset.range n).erase k) := by
  intro a ha b hb hab
  simp only [Finset.coe_erase, Set.mem_diff, Finset.mem_coe,
    Finset.mem_range, Set.mem_singleton_iff] at ha hb
  obtain ⟨han, hak⟩ := ha
  obtain ⟨hbn, hbk⟩ := hb
  unfold partnerPair at hab
  split_ifs at hab <;> simp only [Prod.mk.injEq] at hab <;> omega

lemma partnerPair_inj2 {n k : ℕ} :
    ∀ x ∈ (Finset.range n).erase k, ∀ y ∈ (Finset.range n).erase k,
      partnerPair k x = partnerPair k y → x = y := fun x hx y hy h =>
  partnerPair_injOn (n := n) (Finset.mem_coe.mpr hx) (Finset.mem_coe.mpr hy) h

/-- The option-valued selector applied to every enumerated pair when building
row `k` of the pairwise score matrix. -/
def rowSelect (U1 : ℕ → ℕ → ℝ) (k : ℕ) (p : ℕ × ℕ) : Option ℝ :=
  if p.1 = k then some (U1 p.1 p.2)
  else if p.2 = k then some (U1 p.2 p.1) else none

lemma fetaRow_eq_filterMap (n : ℕ) (U1 : ℕ → ℕ → ℝ) (k : ℕ) :
    fetaRow n U1 k = (combinations2 n).filterMap (rowSelect U1 k) := rfl

lemma rowSelect_partnerPair (U1 : ℕ → ℕ → ℝ) {k j : ℕ} (hjk : j ≠ k) :
    rowSelect U1 k (partnerPair k j) = some (U1 k j) := by
  unfold partnerPair rowSelect
  by_cases hlt : j < k
  · rw [if_pos hlt, if_neg (show ((j, k).1 = k) → False from hjk), if_pos rfl]
  · rw [if_neg hlt, if_pos rfl]

lemma fetaRow_sum {n k : ℕ} (hk : k < n) (U1 : ℕ → ℕ → ℝ) :
    (fetaRow n U1 k).sum = ∑ j ∈ (Finset.range n).erase k, U1 k j := by
  rw [fetaRow_eq_filterMap, sum_filterMap_eq, ←
    List.sum_toFinset _ (combinations2_nodup n), combinations2_toFinset]
  have hzero : ∀ p ∈ pairFinset n,
      (fun p => (rowSelect U1 k p).getD 0) p ≠ 0 → (p.1 = k ∨ p.2 = k) := by
    intro p _ hp
    by_contra hcon
    push_neg at hcon
    simp [rowSelect, hcon.1, hcon.2] at hp
  rw [← Finset.sum_filter_of_ne hzero]
  have hrp : ((pairFinset n).filter fun p => p.1 = k ∨ p.2 = k) =
      rowPairs n k := rfl
  rw [hrp, ← partnerPair_image (n := n) (k := k) hk,
    Finset.sum_image partnerPair_inj2]
  refine Finset.sum_congr rfl fun j hj => ?_
  simp only [Finset.mem_erase, Finset.mem_range] at hj
  rw [rowSelect_partnerPair U1 hj.1, Option.getD_some]

lemma fetaRow_length {n k : ℕ} (hk : k < n) (U1 : ℕ → ℕ → ℝ) :
    (fetaRow n U1 k).length = n - 1 := by
  rw [fetaRow_eq_filterMap, length_filterMap_eq]
  have hfc : ((combinations2 n).filter fun p => (rowSelect U1 k p).isSome) =
      (combinations2 n).filter fun p => decide (p.1 = k ∨ p.2 = k) := by
    refine List.filter_congr fun p _ => ?_
    unfold rowSelect
    by_cases h1 : p.1 = k
    · simp [h1]
    · by_cases h2 : p.2 = k <;> simp [h1, h2]
  rw [hfc]
  have hnd : ((combinations2 n).filter
      fun p => decide (p.1 = k ∨ p.2 = k)).Nodup :=
    (combinations2_nodup n).filter _
  rw [← List.toFinset_card_of_nodup hnd, List.toFinset_filter,
    combinations2_toFinset]
  have hfilters : ((pairFinset n).filter
      fun p => (decide (p.1 = k ∨ p.2 = k) : Bool)) = rowPairs n k := by
    ext p
    simp [rowPairs]
  rw [hfilters, ← partnerPair_image (n := n) (k := k) hk,
    Finset.card_image_of_injOn partnerPair_injOn,
    Finset.card_erase_of_mem (Finset.mem_range.mpr hk), Finset.card_range]

lemma combinations2_length (n : ℕ) :
    (combinations2 n).length = n * (n - 1) / 2 := by
  rw [← List.toFinset_card_of_nodup (combinations2_nodup n),
    combinations2_toFinset]
  have hsplit : pairFinset n =
      (Finset.range n).biUnion fun j => (Finset.range j).image fun i => (i, j) := by
    ext p
    rcases p with ⟨a, b⟩
    simp only [pairFinset, Finset.mem_filter, Finset.mem_product,
      Finset.mem_range, Finset.mem_biUnion, Finset.mem_image]
    constructor
    · rintro ⟨⟨_, hb⟩, hab⟩
      exact ⟨b, hb, a, hab, rfl⟩
    · rintro ⟨j, hj, i, hij, hp⟩
      obtain ⟨rfl, rfl⟩ := Prod.mk.injEq .. ▸ hp
      exact ⟨⟨lt_trans hij hj, hj⟩, hij⟩
  rw [hsplit, Finset.card_biUnion]
  · have hc : ∀ j, ((Finset.range j).image fun i => (i, j)).card = j := by
      intro j
      rw [Finset.card_image_of_injective _ (fun a b hab =>
        (Prod.mk.injEq .. ▸ hab).1), Finset.card_range]
    simp only [hc]
    exact Finset.sum_range_id n
  · intro a _ b _ hab
    refine Finset.disjoint_left.mpr ?_
    rintro p hp hq
    simp only [Finset.mem_image, Finset.mem_range] at hp hq
    obtain ⟨i, _, rfl⟩ := hp
    obtain ⟨i', _, h⟩ := hq
    exact hab ((Prod.mk.injEq .. ▸ h).2).symm

/-! ## FATELinearCore._predict_scores_fixed (fate_linear.py, lines 139-147) -/

/-- The hidden set representation computed by `_predict_scores_fixed` for one
instance `x` (list of object feature vectors):
`rep = np.mean(np.dot(X, self.weight1_), axis=1) + self.bias1_`, where entry
`t` of `np.dot(x_o, weight1_)` is the dot product of `x_o` with column `t` of
`weight1_`, and the mean is taken over the object axis. -/
noncomputable def fateRep (weight1_ : List (List ℝ)) (bias1_ : List ℝ)
    (x : List (List ℝ)) : List ℝ :=
  List.zipWith (fun m bv => m + bv)
    ((List.range ((weight1_.headD []).length)).map fun t =>
      (x.map fun o => dotList o (weight1_.map fun r => r.getD t 0)).sum /
        (x.length : ℝ))
    bias1_

/-- Utility score of object `o` within instance `x`, as computed by
`FATELinearCore._predict_scores_fixed`:
`sigmoid(np.dot(concat(x_o, rep), weight2_) + bias2_)`. -/
noncomputable def fateScore (weight1_ : List (List ℝ)) (bias1_ : List ℝ)
    (weight2_ : List ℝ) (bias2_ : ℝ) (x : List (List ℝ)) (o : List ℝ) : ℝ :=
  sigmoid (dotList (o ++ fateRep weight1_ bias1_ x) weight2_ + bias2_)

/-- The score matrix computed by the body of
`FATELinearCore._predict_scores_fixed` after the feature-dimension assert. -/
noncomputable def fateScoresCore (weight1_ : List (List ℝ)) (bias1_ : List ℝ)
    (weight2_ : List ℝ) (bias2_ : ℝ) (X : List (List (List ℝ))) :
    List (List ℝ) :=
  X.map fun x => x.map fun o => fateScore weight1_ bias1_ weight2_ bias2_ x o

namespace FATELinearCore

/-- `FATELinearCore._predict_scores_fixed`: unpacks
`n_instances, n_objects, n_features = X.shape`, asserts
`n_features == self.n_object_features_fit_` (an `AssertionError`, modelled as
`Except.error`, when the feature dimension differs from the one recorded at
fit time), then computes the sigmoid-squashed linear scores. -/
noncomputable def predict_scores_fixed (n_object_features_fit_ : ℕ)
    (weight1_ : List (List ℝ)) (bias1_ : List ℝ) (weight2_ : List ℝ)
    (bias2_ : ℝ) (X : List (List (List ℝ))) : Except Unit (List (List ℝ)) :=
  if ((X.headD []).headD []).length = n_object_features_fit_ then
    Except.ok (fateScoresCore weight1_ bias1_ weight2_ bias2_ X)
  else Except.error ()

/-- Modelled from the spec: `Learner.predict_scores` (base class not in the
excerpt) dispatches to the learner's `_predict_scores_fixed` on a fixed-size
batch; the learner's pseudo-random generator position `c` is threaded through
the call, and this scorer does not consume it. -/
noncomputable def predict_scores (n_object_features_fit_ : ℕ)
    (weight1_ : List (List ℝ)) (bias1_ : List ℝ) (weight2_ : List ℝ)
    (bias2_ : ℝ) (X : List (List (List ℝ))) (c : ℕ) :
    Except Unit (List (List ℝ)) × ℕ :=
  (predict_scores_fixed n_object_features_fit_ weight1_ bias1_ weight2_ bias2_
    X, c)

end FATELinearCore

/-! ## PairwiseSVM._predict_scores_fixed (pairwise_svm.py, lines 99-109) -/

namespace PairwiseSVM

/-- `PairwiseSVM._predict_scores_fixed`: asserts
`X.shape[-1] == self.n_object_features_fit_`, then returns
`np.dot(X, weights[:-1])` when an intercept was fitted and
`np.dot(X, weights)` otherwise. -/
def predict_scores_fixed (n_object_features_fit_ : ℕ) (fit_intercept : Bool)
    (weights : List ℝ) (X : List (List (List ℝ))) :
    Except Unit (List (List ℝ)) :=
  if ((X.headD []).headD []).length = n_object_features_fit_ then
    Except.ok (X.map fun x => x.map fun o =>
      dotList o (if fit_intercept then weights.dropLast else weights))
  else Except.error ()

/-- Modelled from the spec: `Learner.predict_scores` dispatches to
`_predict_scores_fixed`; the generator position `c` is not consumed. -/
def predict_scores (n_object_features_fit_ : ℕ) (fit_intercept : Bool)
    (weights : List ℝ) (X : List (List (List ℝ))) (c : ℕ) :
    Except Unit (List (List ℝ)) × ℕ :=
  (predict_scores_fixed n_object_features_fit_ fit_intercept weights X, c)

end PairwiseSVM

/-! ## RandomBaselineDC._predict_scores_fixed (baseline.py, lines 24-26) -/

/-- Modelled from the spec: the learner's numpy pseudo-random generator
(spec section 5: each learner owns its own pseudo-random generator) is
modelled as a stream `vals` of pseudo-random draws together with a position
`c`; `rand(a, b)` returns the next `a * b` draws of the stream reshaped to an
`a × b` matrix and advances the position. -/
def randMatrix (vals : ℕ → ℝ) (c a b : ℕ) : List (List ℝ) :=
  (List.range a).map fun i => (List.range b).map fun j => vals (c + i * b + j)

namespace RandomBaselineDC

/-- `RandomBaselineDC._predict_scores_fixed`: unpacks
`n_instances, n_objects, n_features = X.shape` and returns a fresh
`self.random_state_.rand(n_instances, n_objects)` draw, advancing the
generator state. -/
def predict_scores_fixed (vals : ℕ → ℝ) (c : ℕ)
    (X : List (List (List ℝ))) : List (List ℝ) × ℕ :=
  (randMatrix vals c X.length (X.headD []).length,
   c + X.length * (X.headD []).length)

/-- Modelled from the spec: `Learner.predict_scores` dispatches to
`_predict_scores_fixed`, threading the learner's generator state. -/
def predict_scores (vals : ℕ → ℝ) (X : List (List (List ℝ))) (c : ℕ) :
    List (List ℝ) × ℕ :=
  predict_scores_fixed vals c X

end RandomBaselineDC

/-! ## FETAChoiceFunction._predict_scores_using_pairs (feta_choice.py, 247-250) -/

/-- `FETAChoiceFunction._predict_scores_using_pairs`: the score matrix from
the FETANetwork base implementation (outside the excerpt; abstracted as
`base`) is squashed elementwise by `csrank.numpy_util.sigmoid`. -/
noncomputable def predict_scores_using_pairs (base : List (List ℝ)) :
    List (List ℝ) :=
  base.map fun r => r.map sigmoid

/-! ## Claim theorems C1, C2, C3, C5, C8, C9 -/

/-- C1: for every query of size `n ≥ 2` processed by the FETA choice model,
the utility score of each object `k` equals the sigmoid of the arithmetic
mean of its `n - 1` directional pairwise scores against every other object,
plus, when the zeroth-order model is enabled, the per-object zeroth-order
scalar added to that mean before the sigmoid is applied. -/
theorem C1_feta_utility_is_sigmoid_of_mean (n : ℕ) (hn : 2 ≤ n) (add0 : Bool)
    (h : List ℝ → List ℝ) (out : List ℝ → ℝ)
    (h0 : List ℝ → List ℝ) (out0 : List ℝ → ℝ)
    (X : ℕ → List ℝ) (k : ℕ) (hk : k < n) :
    construct_model_score n add0 h out h0 out0 X k =
      sigmoid ((∑ j ∈ (Finset.range n).erase k, pairScore h out X k j) /
          ((n - 1 : ℕ) : ℝ) +
        (if add0 then zerothScore h0 out0 X k else 0)) := by
  unfold construct_model_score listMean
  rw [fetaRow_sum hk, fetaRow_length hk]

theorem C1_witness :
    2 ≤ 2 ∧ (0 : ℕ) < 2 ∧
    construct_model_score 2 false id List.sum id List.sum (fun _ => [0]) 0 =
      sigmoid ((∑ j ∈ (Finset.range 2).erase 0,
          pairScore id List.sum (fun _ => [0]) 0 j) / ((2 - 1 : ℕ) : ℝ) +
        (if false then zerothScore id List.sum (fun _ => [0]) 0 else 0)) :=
  ⟨by norm_num, by norm_num,
    C1_feta_utility_is_sigmoid_of_mean 2 (by norm_num) false id List.sum id
      List.sum (fun _ => [0]) 0 (by norm_num)⟩

/-- C2: for every query of size `n ≥ 2`, the model construction enumerates
exactly `n * (n - 1) / 2` unordered pairs (the combinations list has that
length, is duplicate-free, and contains exactly the pairs `i < j < n`), and
each object's aggregate receives exactly `n - 1` directional scores. -/
theorem C2_pair_enumeration_counts (n : ℕ) (hn : 2 ≤ n) (U1 : ℕ → ℕ → ℝ)
    (k : ℕ) (hk : k < n) :
    (combinations2 n).length = n * (n - 1) / 2 ∧
    (combinations2 n).Nodup ∧
    (∀ p : ℕ × ℕ, p ∈ combinations2 n ↔ p.1 < p.2 ∧ p.2 < n) ∧
    (fetaRow n U1 k).length = n - 1 :=
  ⟨combinations2_length n, combinations2_nodup n,
    fun _ => mem_combinations2, fetaRow_length hk U1⟩

theorem C2_witness :
    2 ≤ 3 ∧ (1 : ℕ) < 3 ∧
    ((combinations2 3).length = 3 * (3 - 1) / 2 ∧
      (combinations2 3).Nodup ∧
      (∀ p : ℕ × ℕ, p ∈ combinations2 3 ↔ p.1 < p.2 ∧ p.2 < 3) ∧
      (fetaRow 3 (fun _ _ => (0 : ℝ)) 1).length = 3 - 1) :=
  ⟨by norm_num, by norm_num,
    C2_pair_enumeration_counts 3 (by norm_num) (fun _ _ => (0 : ℝ)) 1
      (by norm_num)⟩

/-- C3: every utility score produced after the logistic squashing step lies
strictly between 0 and 1: for the FETA choice model's constructed network
output, for its pairwise prediction path, and for the FATE linear core's
predicted scores. -/
theorem C3_scores_strictly_between_zero_one :
    (∀ (n : ℕ) (add0 : Bool) (h : List ℝ → List ℝ) (out : List ℝ → ℝ)
        (h0 : List ℝ → List ℝ) (out0 : List ℝ → ℝ) (X : ℕ → List ℝ) (k : ℕ),
      0 < construct_model_score n add0 h out h0 out0 X k ∧
        construct_model_score n add0 h out h0 out0 X k < 1) ∧
    (∀ (base : List (List ℝ)), ∀ r ∈ predict_scores_using_pairs base,
      ∀ v ∈ r, 0 < v ∧ v < 1) ∧
    (∀ (w1 : List (List ℝ)) (b1 w2 : List ℝ) (b2 : ℝ)
        (X : List (List (List ℝ))), ∀ r ∈ fateScoresCore w1 b1 w2 b2 X,
      ∀ v ∈ r, 0 < v ∧ v < 1) := by
  refine ⟨fun n add0 h out h0 out0 X k => ⟨sigmoid_pos _, sigmoid_lt_one _⟩,
    fun base r hr v hv => ?_, fun w1 b1 w2 b2 X r hr v hv => ?_⟩
  · obtain ⟨r0, _, rfl⟩ := List.mem_map.mp hr
    obtain ⟨u, _, rfl⟩ := List.mem_map.mp hv
    exact ⟨sigmoid_pos u, sigmoid_lt_one u⟩
  · obtain ⟨x, _, rfl⟩ := List.mem_map.mp hr
    obtain ⟨o, _, rfl⟩ := List.mem_map.mp hv
    exact ⟨sigmoid_pos _, sigmoid_lt_one _⟩

/-- C5 counterexample: the claim fails for `RandomBaselineDC`, whose score
prediction draws fresh pseudo-random values on every call; two consecutive
calls on the identical input `[[[0]]]` (with the stream of draws
`0, 1, 2, ...`) return `[[0]]` and then `[[1]]`. -/
theorem C5_counterexample :
    (RandomBaselineDC.predict_scores (fun t => (t : ℝ)) [[[0]]] 0).1 ≠
      (RandomBaselineDC.predict_scores (fun t => (t : ℝ)) [[[0]]]
        (RandomBaselineDC.predict_scores (fun t => (t : ℝ)) [[[0]]] 0).2).1 := by
  simp only [RandomBaselineDC.predict_scores,
    RandomBaselineDC.predict_scores_fixed, randMatrix]
  norm_num

/-- C5 amended: calling `predict_scores` twice on identical input with no
intervening fit yields identical output for `PairwiseSVM` and
`FATELinearCore`, whose scores are deterministic functions of the weights
stored at fit time; it does not hold for `RandomBaselineDC`, which draws
fresh pseudo-random values on each call. -/
theorem C5_predict_scores_deterministic (nf : ℕ) (fi : Bool) (w : List ℝ)
    (w1 : List (List ℝ)) (b1 w2 : List ℝ) (b2 : ℝ)
    (X : List (List (List ℝ))) (c : ℕ) :
    (PairwiseSVM.predict_scores nf fi w X c).1 =
      (PairwiseSVM.predict_scores nf fi w X
        (PairwiseSVM.predict_scores nf fi w X c).2).1 ∧
    (FATELinearCore.predict_scores nf w1 b1 w2 b2 X c).1 =
      (FATELinearCore.predict_scores nf w1 b1 w2 b2 X
        (FATELinearCore.predict_scores nf w1 b1 w2 b2 X c).2).1 :=
  ⟨rfl, rfl⟩

/-- C8: for every fitted learner and rectangular rank-3 input of shape
`(n_instances, n_objects, n_features)` with the fitted feature dimension, the
returned score array has shape `(n_instances, n_objects)`, for
`RandomBaselineDC`, `PairwiseSVM` and `FATELinearCore`. -/
theorem C8_score_shape (vals : ℕ → ℝ) (c nf : ℕ) (fi : Bool) (w : List ℝ)
    (w1 : List (List ℝ)) (b1 w2 : List ℝ) (b2 : ℝ)
    (X : List (List (List ℝ))) (nObj : ℕ)
    (hrect : ∀ x ∈ X, x.length = nObj)
    (hhead : (X.headD []).length = nObj)
    (hfeat : ((X.headD []).headD []).length = nf) :
    ((RandomBaselineDC.predict_scores_fixed vals c X).1.length = X.length ∧
      ∀ r ∈ (RandomBaselineDC.predict_scores_fixed vals c X).1,
        r.length = nObj) ∧
    (∃ S, PairwiseSVM.predict_scores_fixed nf fi w X = Except.ok S ∧
      S.length = X.length ∧ ∀ r ∈ S, r.length = nObj) ∧
    (∃ S, FATELinearCore.predict_scores_fixed nf w1 b1 w2 b2 X =
        Except.ok S ∧ S.length = X.length ∧ ∀ r ∈ S, r.length = nObj) := by
  refine ⟨⟨?_, ?_⟩,
    ⟨X.map fun x => x.map fun o =>
        dotList o (if fi then w.dropLast else w), ?_, ?_, ?_⟩,
    ⟨fateScoresCore w1 b1 w2 b2 X, ?_, ?_, ?_⟩⟩
  · simp [RandomBaselineDC.predict_scores_fixed, randMatrix]
  · intro r hr
    simp only [RandomBaselineDC.predict_scores_fixed, randMatrix,
      List.mem_map] at hr
    obtain ⟨i, _, rfl⟩ := hr
    simpa using hhead
  · rw [PairwiseSVM.predict_scores_fixed, if_pos hfeat]
  · simp
  · intro r hr
    simp only [List.mem_map] at hr
    obtain ⟨x, hx, rfl⟩ := hr
    simp [hrect x hx]
  · rw [FATELinearCore.predict_scores_fixed, if_pos hfeat]
  · simp [fateScoresCore]
  · intro r hr
    simp only [fateScoresCore, List.mem_map] at hr
    obtain ⟨x, hx, rfl⟩ := hr
    simp [hrect x hx]

theorem C8_witness :
    (∀ x ∈ [[[(0 : ℝ)], [1]]], x.length = 2) ∧
    (([[[(0 : ℝ)], [1]]].headD []).length = 2) ∧
    ((([[[(0 : ℝ)], [1]]].headD []).headD []).length = 1) ∧
    (((RandomBaselineDC.predict_scores_fixed (fun t => (t : ℝ)) 0
        [[[(0 : ℝ)], [1]]]).1.length = [[[(0 : ℝ)], [1]]].length ∧
      ∀ r ∈ (RandomBaselineDC.predict_scores_fixed (fun t => (t : ℝ)) 0
        [[[(0 : ℝ)], [1]]]).1, r.length = 2) ∧
    (∃ S, PairwiseSVM.predict_scores_fixed 1 true [0, 1]
        [[[(0 : ℝ)], [1]]] = Except.ok S ∧
      S.length = [[[(0 : ℝ)], [1]]].length ∧ ∀ r ∈ S, r.length = 2) ∧
    (∃ S, FATELinearCore.predict_scores_fixed 1 [[1]] [0] [0, 1] 0
        [[[(0 : ℝ)], [1]]] = Except.ok S ∧
      S.length = [[[(0 : ℝ)], [1]]].length ∧ ∀ r ∈ S, r.length = 2)) :=
  ⟨by simp, by simp, by simp,
    C8_score_shape (fun t => (t : ℝ)) 0 1 true [0, 1] [[1]] [0] [0, 1] 0
      [[[(0 : ℝ)], [1]]] 2 (by simp) (by simp) (by simp)⟩

/-- C9: for every input whose feature dimension differs from the dimension
recorded at fit time, score prediction fails fast with an assertion error
before any score computation, for both the FATE linear core and the pairwise
SVM score predictors. -/
theorem C9_feature_mismatch_fails_fast (nf : ℕ) (fi : Bool) (w : List ℝ)
    (w1 : List (List ℝ)) (b1 w2 : List ℝ) (b2 : ℝ)
    (X : List (List (List ℝ)))
    (hmis : ((X.headD []).headD []).length ≠ nf) :
    FATELinearCore.predict_scores_fixed nf w1 b1 w2 b2 X =
        Except.error () ∧
    PairwiseSVM.predict_scores_fixed nf fi w X = Except.error () := by
  constructor
  · rw [FATELinearCore.predict_scores_fixed, if_neg hmis]
  · rw [PairwiseSVM.predict_scores_fixed, if_neg hmis]

theorem C9_witness :
    ((([[[(0 : ℝ)]]].headD []).headD []).length ≠ 2) ∧
    (FATELinearCore.predict_scores_fixed 2 [[1]] [0] [0, 1] 0
        [[[(0 : ℝ)]]] = Except.error () ∧
      PairwiseSVM.predict_scores_fixed 2 true [0, 1] [[[(0 : ℝ)]]] =
        Except.error ()) :=
  ⟨by simp, C9_feature_mismatch_fails_fast 2 true [0, 1] [[1]] [0] [0, 1] 0
    [[[(0 : ℝ)]]] (by simp)⟩

/-! ## Learner.predict round trip (pairwise_discrete_choice.py, lines 56-69) -/

/-- Modelled from the spec: `Learner.predict` (base class not in the excerpt)
converts scores to the final output via
`self.predict_for_scores(self.predict_scores(X))` ("predict(X) /
predict_for_scores(scores) convert scores to final rankings or choice
sets"). -/
def Learner_predict {X S O : Type} (ps : X → S) (pfs : S → O) (x : X) : O :=
  pfs (ps x)

namespace PairwiseSVMDiscreteChoiceFunction

/-- `PairwiseSVMDiscreteChoiceFunction.predict_scores`: delegates via
`super().predict_scores(X)` to the fixed-size pairwise SVM scorer; a failed
feature-dimension assert propagates as the error case. -/
def predict_scores (nf : ℕ) (fi : Bool) (w : List ℝ)
    (X : List (List (List ℝ))) : Except Unit (List (List ℝ)) :=
  PairwiseSVM.predict_scores_fixed nf fi w X

/-- `PairwiseSVMDiscreteChoiceFunction.predict_for_scores`: delegates to
`DiscreteObjectChooser.predict_for_scores` (outside the excerpt; abstracted
as the conversion `dc` from a score matrix to one-hot choices); an exception
raised earlier propagates unchanged. -/
def predict_for_scores (dc : List (List ℝ) → List (List ℕ))
    (scores : Except Unit (List (List ℝ))) : Except Unit (List (List ℕ)) :=
  scores.map dc

/-- `PairwiseSVMDiscreteChoiceFunction.predict`: delegates via
`super().predict(X)` to `Learner.predict`. -/
def predict (nf : ℕ) (fi : Bool) (w : List ℝ)
    (dc : List (List ℝ) → List (List ℕ)) (X : List (List (List ℝ))) :
    Except Unit (List (List ℕ)) :=
  Learner_predict (predict_scores nf fi w) (predict_for_scores dc) X

end PairwiseSVMDiscreteChoiceFunction

/-- C6: for every fitted learner instance and every input `X`, `predict(X)`
equals `predict_for_scores(predict_scores(X))` on the same instance (here for
the pairwise SVM discrete choice function, whose `predict` delegates to the
inherited `Learner.predict`). -/
theorem C6_predict_roundtrip (nf : ℕ) (fi : Bool) (w : List ℝ)
    (dc : List (List ℝ) → List (List ℕ)) (X : List (List (List ℝ))) :
    PairwiseSVMDiscreteChoiceFunction.predict nf fi w dc X =
      PairwiseSVMDiscreteChoiceFunction.predict_for_scores dc
        (PairwiseSVMDiscreteChoiceFunction.predict_scores nf fi w X) := rfl

/-! ## FATELinearCore.fit and _fit_ (fate_linear.py, lines 93-137) -/

/-- One epoch's pass over the mini-batches in `FATELinearCore._fit_`: each
batch start runs one optimizer step (`tf_session.run(self.optimizer_, ...)`,
abstracted as `optStep` on the session state `St`); an operator interruption
arriving at global step `t` (schedule `interrupt`) raises
`KeyboardInterrupt`, modelled as `Except.error` carrying the session state at
that moment. -/
def epochBatches {St : Type} (optStep : St → St) (interrupt : ℕ → Bool) :
    List ℕ → ℕ → St → Except St (ℕ × St)
  | [], t, s => Except.ok (t, s)
  | _ :: rest, t, s =>
      if interrupt t then Except.error s
      else epochBatches optStep interrupt rest (t + 1) (optStep s)

/-- The epoch loop of `_fit_` without the surrounding `try`: after the
batches of epoch `e`, `self.step_decay(epoch)` rebuilds the optimizer
(abstracted as `decay e` acting on the session state). -/
def epochLoop {St : Type} (optStep : St → St) (decay : ℕ → St → St)
    (interrupt : ℕ → Bool) (starts : List ℕ) :
    List ℕ → ℕ → St → Except St (ℕ × St)
  | [], t, s => Except.ok (t, s)
  | e :: es, t, s =>
      match epochBatches optStep interrupt starts t s with
      | Except.error s' => Except.error s'
      | Except.ok (t', s') =>
          epochLoop optStep decay interrupt starts es t' (decay e s')

/-- `FATELinearCore._fit_`: wraps the epoch loop in
`try ... except KeyboardInterrupt`; on interruption the current loss is
computed and logged (which leaves the session weights unchanged) and the
method returns normally with the partially trained session state. -/
def fit_inner {St : Type} (optStep : St → St) (decay : ℕ → St → St)
    (interrupt : ℕ → Bool) (starts : List ℕ) (epochs : ℕ) (s : St) : St :=
  match epochLoop optStep decay interrupt starts (List.range epochs) 0 s with
  | Except.ok (_, s') => s'
  | Except.error s' => s'

namespace FATELinearCore

/-- `FATELinearCore.fit`: constructs the graph, runs `_fit_` inside the
session, and stores the session's variables (`weight1_`, `bias1_`,
`weight2_`, `bias2_`, abstracted as `extractWeights`) on the instance. -/
def fit {St W : Type} (extractWeights : St → W) (optStep : St → St)
    (decay : ℕ → St → St) (interrupt : ℕ → Bool) (starts : List ℕ)
    (epochs : ℕ) (s : St) : W :=
  extractWeights (fit_inner optStep decay interrupt starts epochs s)

end FATELinearCore

/-- States reachable from the initial session state by optimizer steps and
step-decay updates: the possible "partially trained" weights. -/
inductive ReachableState {St : Type} (optStep : St → St)
    (decay : ℕ → St → St) (s0 : St) : St → Prop
  | init : ReachableState optStep decay s0 s0
  | step {s : St} : ReachableState optStep decay s0 s →
      ReachableState optStep decay s0 (optStep s)
  | dec {s : St} (e : ℕ) : ReachableState optStep decay s0 s →
      ReachableState optStep decay s0 (decay e s)

/-- The session state carried by a (possibly interrupted) loop outcome. -/
def outcomeState {St : Type} : Except St (ℕ × St) → St
  | Except.ok (_, s) => s
  | Except.error s => s

lemma epochBatches_reachable {St : Type} (optStep : St → St)
    (decay : ℕ → St → St) (s0 : St) (interrupt : ℕ → Bool) :
    ∀ (starts : List ℕ) (t : ℕ) (s : St),
      ReachableState optStep decay s0 s →
      ReachableState optStep decay s0
        (outcomeState (epochBatches optStep interrupt starts t s)) := by
  intro starts
  induction starts with
  | nil => intro t s hs; exact hs
  | cons a rest ih =>
      intro t s hs
      show ReachableState optStep decay s0 (outcomeState
        (if interrupt t then Except.error s
         else epochBatches optStep interrupt rest (t + 1) (optStep s)))
      split_ifs with hi
      · exact hs
      · exact ih (t + 1) (optStep s) (ReachableState.step hs)

lemma epochLoop_reachable {St : Type} (optStep : St → St)
    (decay : ℕ → St → St) (s0 : St) (interrupt : ℕ → Bool)
    (starts : List ℕ) :
    ∀ (es : List ℕ) (t : ℕ) (s : St),
      ReachableState optStep decay s0 s →
      ReachableState optStep decay s0
        (outcomeState (epochLoop optStep decay interrupt starts es t s)) := by
  intro es
  induction es with
  | nil => intro t s hs; exact hs
  | cons e rest ih =>
      intro t s hs
      show ReachableState optStep decay s0 (outcomeState
        (match epochBatches optStep interrupt starts t s with
         | Except.error s' => Except.error s'
         | Except.ok (t', s') =>
             epochLoop optStep decay interrupt starts rest t' (decay e s')))
      have hb := epochBatches_reachable optStep decay s0 interrupt starts t s hs
      rcases hbe : epochBatches optStep interrupt starts t s with s' | ⟨t', s'⟩
      · rw [hbe] at hb
        exact hb
      · rw [hbe] at hb
        exact ih t' (decay e s') (ReachableState.dec e hb)

/-- C7: an operator interruption during the FATE linear core's epoch loop is
caught inside `_fit_` and does not propagate out of `fit`: whether the raw
epoch loop finishes or is interrupted, `fit` returns normally and stores the
session state carried by the outcome (the partially trained weights on
interruption), and that state is always reachable by optimizer steps from
the initial state. -/
theorem C7_interrupt_caught_in_fit {St W : Type} (extractWeights : St → W)
    (optStep : St → St) (decay : ℕ → St → St) (interrupt : ℕ → Bool)
    (starts : List ℕ) (epochs : ℕ) (s0 : St) :
    (∀ s', epochLoop optStep decay interrupt starts (List.range epochs) 0 s0 =
        Except.error s' →
      FATELinearCore.fit extractWeights optStep decay interrupt starts epochs
        s0 = extractWeights s') ∧
    (∀ t s', epochLoop optStep decay interrupt starts (List.range epochs) 0
        s0 = Except.ok (t, s') →
      FATELinearCore.fit extractWeights optStep decay interrupt starts epochs
        s0 = extractWeights s') ∧
    ReachableState optStep decay s0
      (fit_inner optStep decay interrupt starts epochs s0) := by
  refine ⟨?_, ?_, ?_⟩
  · intro s' h
    unfold FATELinearCore.fit fit_inner
    rw [h]
  · intro t s' h
    unfold FATELinearCore.fit fit_inner
    rw [h]
  · have h := epochLoop_reachable optStep decay s0 interrupt starts
      (List.range epochs) 0 s0 ReachableState.init
    unfold fit_inner
    rcases hbe : epochLoop optStep decay interrupt starts
        (List.range epochs) 0 s0 with s' | ⟨t', s'⟩ <;> rw [hbe] at h <;>
      exact h

theorem C7_witness :
    (epochLoop Nat.succ (fun _ s => s) (fun t => decide (t = 1)) [0, 1]
      (List.range 2) 0 0 = Except.error 1) ∧
    FATELinearCore.fit id Nat.succ (fun _ s => s) (fun t => decide (t = 1))
      [0, 1] 2 0 = id 1 :=
  ⟨rfl, (C7_interrupt_caught_in_fit id Nat.succ (fun _ s => s)
    (fun t => decide (t = 1)) [0, 1] 2 0).1 1 rfl⟩

/-! ## FETAChoiceFunction.fit (feta_choice.py, lines 252-313) -/

/-- Result of `FETAChoiceFunction.fit`: the instance attribute `threshold_`
(`none` when never assigned), the fitted network when the inherited fit
succeeded, and the exception propagating out of `fit`, if any. -/
structure FetaFitResult (E N : Type) where
  threshold_ : Option ℝ
  net : Option N
  exc : Option E

/-- `FETAChoiceFunction.fit`: with `tune_size > 0` the data is split by
`train_test_split` (the concrete split is an input here, as produced by the
instance's random state); the inherited network fit (`super().fit`, outside
the excerpt; abstracted as `superFit`, which may raise) runs inside `try`,
and the `finally` block assigns
`self.threshold_ = self._tune_threshold(X_val, Y_val, ...)` (`_tune_threshold`
is outside the excerpt; abstracted as `tune`) before any exception from the
`try` body propagates. With `tune_size = 0` the network is fitted on all the
data and `threshold_` is set to `0.5` only after a successful fit. -/
noncomputable def FETAChoiceFunction_fit {IX IY E N : Type} (tune_size : ℚ)
    (split : (IX × IX) × (IY × IY)) (X : IX) (Y : IY)
    (superFit : IX → IY → Except E N) (tune : IX → IY → ℝ) :
    FetaFitResult E N :=
  if 0 < tune_size then
    match superFit split.1.1 split.2.1 with
    | Except.ok nst =>
        { threshold_ := some (tune split.1.2 split.2.2), net := some nst,
          exc := none }
    | Except.error e =>
        { threshold_ := some (tune split.1.2 split.2.2), net := none,
          exc := some e }
  else
    match superFit X Y with
    | Except.ok nst =>
        { threshold_ := some (0.5 : ℝ), net := some nst, exc := none }
    | Except.error e => { threshold_ := none, net := none, exc := some e }

/-- C10: in `FETAChoiceFunction.fit` with `tune_size > 0`, the threshold
tuning runs even when fitting the main network raises: `threshold_` is
assigned from `_tune_threshold` on the held-out split and the exception then
propagates to the caller. -/
theorem C10_threshold_tuned_despite_failure {IX IY E N : Type}
    (tune_size : ℚ) (split : (IX × IX) × (IY × IY)) (X : IX) (Y : IY)
    (superFit : IX → IY → Except E N) (tune : IX → IY → ℝ)
    (hts : 0 < tune_size) (e : E)
    (hfail : superFit split.1.1 split.2.1 = Except.error e) :
    (FETAChoiceFunction_fit tune_size split X Y superFit tune).threshold_ =
        some (tune split.1.2 split.2.2) ∧
    (FETAChoiceFunction_fit tune_size split X Y superFit tune).exc =
        some e := by
  unfold FETAChoiceFunction_fit
  rw [if_pos hts, hfail]
  exact ⟨rfl, rfl⟩

theorem C10_witness :
    (0 : ℚ) < 1 ∧
    ((fun (_ : ℕ) (_ : ℕ) => (Except.error () : Except Unit Unit)) 0 2 =
      Except.error ()) ∧
    ((FETAChoiceFunction_fit 1 ((0, 1), (2, 3)) 4 5
        (fun _ _ => (Except.error () : Except Unit Unit))
        (fun _ _ => (0 : ℝ))).threshold_ =
      some ((fun (_ : ℕ) (_ : ℕ) => (0 : ℝ)) 1 3) ∧
    (FETAChoiceFunction_fit 1 ((0, 1), (2, 3)) 4 5
        (fun _ _ => (Except.error () : Except Unit Unit))
        (fun _ _ => (0 : ℝ))).exc = some ()) :=
  ⟨by norm_num, rfl,
    C10_threshold_tuned_despite_failure 1 ((0, 1), (2, 3)) 4 5
      (fun _ _ => (Except.error () : Except Unit Unit)) (fun _ _ => (0 : ℝ))
      (by norm_num) () rfl⟩

/-! ## FETAChoiceFunction.sub_sampling (feta_choice.py, lines 315-373) -/

/-- The interface of the numpy `RandomState` methods used by `sub_sampling`,
over an abstract generator state `S`: `choiceSimple st n k replace` models
`random_state.choice(n, size=k, replace=replace)`, `choiceP st n k replace p`
models `choice(n, size=k, replace=replace, p=p)`, and `shuffle st l` models
the in-place `shuffle`.  Each call returns the advanced generator state. -/
structure RandomStateOracle (S : Type) where
  choiceSimple : S → ℕ → ℕ → Bool → List ℕ × S
  choiceP : S → ℕ → ℕ → Bool → List ℝ → List ℕ × S
  shuffle : S → List ℕ → List ℕ × S

/-- The guarantees numpy documents for the modelled generator calls, on the
argument ranges `sub_sampling` uses: `size` values are drawn, each below `n`,
pairwise distinct when drawn without replacement, and `shuffle` permutes its
input. -/
def RandomStateOracle.Valid {S : Type} (R : RandomStateOracle S) : Prop :=
  (∀ st n k, 0 < n → (R.choiceSimple st n k true).1.length = k ∧
      ∀ v ∈ (R.choiceSimple st n k true).1, v < n) ∧
  (∀ st n k, 0 < n → k ≤ n → (R.choiceSimple st n k false).1.length = k ∧
      (R.choiceSimple st n k false).1.Nodup ∧
      ∀ v ∈ (R.choiceSimple st n k false).1, v < n) ∧
  (∀ st n k p, 0 < n → (R.choiceP st n k true p).1.length = k ∧
      ∀ v ∈ (R.choiceP st n k true p).1, v < n) ∧
  (∀ st n k p, 0 < n → k ≤ n → (R.choiceP st n k false p).1.length = k ∧
      (R.choiceP st n k false p).1.Nodup ∧
      ∀ v ∈ (R.choiceP st n k false p).1, v < n) ∧
  (∀ st l, (R.shuffle st l).1.Perm l)

/-- `np.where(y == v)[0]`: the indices at which the label row equals `v`. -/
def npWhere (y : List ℕ) (v : ℕ) : List ℕ :=
  (List.range y.length).filter fun j => decide (y.getD j 0 = v)

/-- `np.zeros(m) + 1 / m`: the uniform probability vector of length `m`. -/
noncomputable def uniformP (m : ℕ) : List ℝ :=
  List.replicate m (1 / (m : ℝ))

/-- Fancy indexing `a[idx]` of a vector by an index list. -/
def fancyIndex {α : Type} (a : List α) (d : α) (idx : List ℕ) : List α :=
  idx.map fun j => a.getD j d

/-- `p[sel] = 0.2 * p[sel]`: numpy fancy assignment (duplicate indices in
`sel` still assign `0.2` times the old value once). -/
noncomputable def scaleAt (p : List ℝ) (sel : List ℕ) : List ℝ :=
  (List.range p.length).map fun j =>
    if j ∈ sel then (0.2 : ℝ) * p.getD j 0 else p.getD j 0

/-- `p = p / p.sum()`. -/
noncomputable def renorm (p : List ℝ) : List ℝ :=
  p.map fun v => v / p.sum

/-- Split a flat draw into `b` consecutive rows of width `w` (the
`size=(bucket_size, n_objects)` reshaping of a numpy `choice` call). -/
def listChunks {α : Type} (w : ℕ) : ℕ → List α → List (List α)
  | 0, _ => []
  | b + 1, l => l.take w :: listChunks w b (l.drop w)

/-- The body of the `for c in cp` loop of `sub_sampling`, iterated over the
drawn positive counts `cp`, threading the generator state and the updated
probability vectors `p_1`, `p_0`, and accumulating the subsampled index rows
`idx`: each iteration draws `c` distinct positive positions (`pos`), then
`n_objects - c` negative positions (`neg`, with replacement exactly when
`n_objects - c` exceeds `len(ind_0)`), rescales and renormalises `p_0`,
concatenates `ind_1[pos]` with `ind_0[neg]`, shuffles the row in place,
rescales and renormalises `p_1` and (again) `p_0`, and appends the row. -/
noncomputable def subSamplingInner {S : Type} (R : RandomStateOracle S)
    (n_objects : ℕ) (ind_1 ind_0 : List ℕ) :
    List ℕ → S → List ℝ → List ℝ → List (List ℕ) → List (List ℕ) × S
  | [], st, _, _, idx => (idx, st)
  | c :: cp, st, p_1, p_0, idx =>
      let posSt := R.choiceP st ind_1.length c false p_1
      let negSt :=
        if ind_0.length < n_objects - c then
          R.choiceP posSt.2 ind_0.length (n_objects - c) true p_0
        else R.choiceP posSt.2 ind_0.length (n_objects - c) false p_0
      let p_0a := renorm (scaleAt p_0 negSt.1)
      let iRow := fancyIndex ind_1 0 posSt.1 ++ fancyIndex ind_0 0 negSt.1
      let shufSt := R.shuffle negSt.2 iRow
      let p_1a := renorm (scaleAt p_1 posSt.1)
      let p_0b := renorm (scaleAt p_0a negSt.1)
      subSamplingInner R n_objects ind_1 ind_0 cp shufSt.2 p_1a p_0b
        (idx ++ [shufSt.1])

/-- Per-query body of `sub_sampling` (one `x, y` pair of the `zip` loop):
computes the index matrix `idx` of shape `(bucket_size, n_objects)` used to
gather the subsampled objects and labels.  `(y == 1).sum()` equals the number
of indices where `y` is `1`, i.e. `len(ind_1)`.  When fewer than `n_objects`
objects are chosen, the counts `cp` of chosen objects per row are drawn from
`{1, ..., positives}` (without replacement when `positives > bucket_size`)
and the `for c in cp` loop builds the rows; otherwise all `bucket_size *
n_objects` positions are drawn from the chosen indices `ind_1` directly. -/
noncomputable def subSamplingRow {S : Type} (R : RandomStateOracle S)
    (n_objects bucket_size : ℕ) (y : List ℕ) (st : S) :
    List (List ℕ) × S :=
  let ind_1 := npWhere y 1
  let p_1 := uniformP ind_1.length
  if ind_1.length < n_objects then
    let ind_0 := npWhere y 0
    let p_0 := uniformP ind_0.length
    let positives :=
      if n_objects > ind_1.length then ind_1.length else n_objects
    let cpSt :=
      if positives > bucket_size then
        R.choiceSimple st positives bucket_size false
      else R.choiceSimple st positives bucket_size true
    subSamplingInner R n_objects ind_1 ind_0 (cpSt.1.map fun v => v + 1)
      cpSt.2 p_1 p_0 []
  else
    let drawSt := R.choiceSimple st ind_1.length (bucket_size * n_objects) true
    (listChunks n_objects bucket_size (fancyIndex ind_1 0 drawSt.1),
      drawSt.2)

/-- The per-query loop of `sub_sampling`, accumulating `X_train`, `Y_train`
by fancy-indexing each query's objects `x` and labels `y` with the rows of
its index matrix. -/
noncomputable def subSamplingLoop {S : Type} (R : RandomStateOracle S)
    (n_objects bucket_size : ℕ) :
    List (List (List ℝ) × List ℕ) → S →
      (List (List (List ℝ)) × List (List ℕ)) × S
  | [], st => (([], []), st)
  | (x, y) :: rest, st =>
      let idxSt := subSamplingRow R n_objects bucket_size y st
      let restSt := subSamplingLoop R n_objects bucket_size rest idxSt.2
      ((idxSt.1.map (fancyIndex x []) ++ restSt.1.1,
        idxSt.1.map (fancyIndex y 0) ++ restSt.1.2), restSt.2)

/-- `FETAChoiceFunction.sub_sampling`: returns `(X, Y)` unchanged when
`n_objects_fit_ <= max_number_of_objects`; otherwise sets
`n_objects = max_number_of_objects`,
`bucket_size = int(X.shape[1] / n_objects)` and subsamples every query. -/
noncomputable def sub_sampling {S : Type} (R : RandomStateOracle S)
    (n_objects_fit_ max_number_of_objects : ℕ)
    (X : List (List (List ℝ))) (Y : List (List ℕ)) (st : S) :
    (List (List (List ℝ)) × List (List ℕ)) × S :=
  if n_objects_fit_ ≤ max_number_of_objects then ((X, Y), st)
  else
    subSamplingLoop R max_number_of_objects
      ((X.headD []).length / max_number_of_objects) (X.zip Y) st

lemma mem_npWhere {y : List ℕ} {v j : ℕ} :
    j ∈ npWhere y v ↔ j < y.length ∧ y.getD j 0 = v := by
  unfold npWhere
  simp [List.mem_filter]

lemma npWhere_one_pos {y : List ℕ} (hone : 1 ∈ y) :
    0 < (npWhere y 1).length := by
  obtain ⟨n, hn⟩ := List.mem_iff_get.mp hone
  have hj : (n : ℕ) ∈ npWhere y 1 := by
    rw [mem_npWhere]
    refine ⟨n.isLt, ?_⟩
    rw [List.getD_eq_getElem y 0 n.isLt, ← List.get_eq_getElem, hn]
  exact List.length_pos.mpr (List.ne_nil_of_mem hj)

lemma length_filter_compl {α : Type} (p q : α → Bool) :
    ∀ (l : List α), (∀ a ∈ l, p a = !q a) →
      (l.filter p).length + (l.filter q).length = l.length := by
  intro l
  induction l with
  | nil => simp
  | cons a l ih =>
      intro h
      have ha := h a (by simp)
      have hrest := ih fun b hb => h b (by simp [hb])
      cases hq : q a <;> rw [hq] at ha <;>
        simp only [Bool.not_false, Bool.not_true] at ha <;>
        simp [List.filter_cons, ha, hq] <;> omega

lemma npWhere_zero_pos {y : List ℕ} (hbin : ∀ v ∈ y, v = 0 ∨ v = 1)
    (hlt : (npWhere y 1).length < y.length) :
    0 < (npWhere y 0).length := by
  have hsum := length_filter_compl (fun j => decide (y.getD j 0 = 0))
    (fun j => decide (y.getD j 0 = 1)) (List.range y.length) ?_
  · unfold npWhere at hlt ⊢
    rw [List.length_range] at hsum
    omega
  · intro j hj
    rw [List.mem_range] at hj
    have hmem : y.getD j 0 ∈ y := by
      rw [List.getD_eq_getElem y 0 hj]
      exact List.getElem_mem hj
    rcases hbin _ hmem with h | h <;> simp only [h] <;> decide

lemma listChunks_length {α : Type} (w : ℕ) :
    ∀ (b : ℕ) (l : List α), (listChunks w b l).length = b := by
  intro b
  induction b with
  | zero => intro l; rfl
  | succ b ih => intro l; simp [listChunks, ih]

lemma listChunks_row_length {α : Type} {w : ℕ} (hw : 0 < w) :
    ∀ (b : ℕ) (l : List α), w * b ≤ l.length →
      ∀ row ∈ listChunks w b l, row.length = w := by
  intro b
  induction b with
  | zero => intro l _ row hrow; simp [listChunks] at hrow
  | succ b ih =>
      intro l hlen row hrow
      have hwb : w * (b + 1) = w * b + w := by ring
      simp only [listChunks, List.mem_cons] at hrow
      rcases hrow with rfl | hrow
      · rw [List.length_take]
        omega
      · refine ih (l.drop w) ?_ row hrow
        rw [List.length_drop]
        omega

lemma listChunks_row_mem {α : Type} (w : ℕ) :
    ∀ (b : ℕ) (l : List α), ∀ row ∈ listChunks w b l, ∀ a ∈ row, a ∈ l := by
  intro b
  induction b with
  | zero => intro l row hrow; simp [listChunks] at hrow
  | succ b ih =>
      intro l row hrow a ha
      simp only [listChunks, List.mem_cons] at hrow
      rcases hrow with rfl | hrow
      · exact List.take_subset w l ha
      · exact List.drop_subset w l (ih (l.drop w) row hrow a ha)

lemma subSamplingInner_spec {S : Type} {R : RandomStateOracle S}
    (hR : R.Valid) {n_objects : ℕ} {ind_1 ind_0 : List ℕ}
    (h1 : 0 < ind_1.length) (h0 : 0 < ind_0.length) :
    ∀ (cp : List ℕ) (st : S) (p_1 p_0 : List ℝ) (idx : List (List ℕ)),
      (∀ c ∈ cp, 1 ≤ c ∧ c ≤ ind_1.length ∧ c ≤ n_objects) →
      (∀ row ∈ idx, row.length = n_objects ∧ ∃ j ∈ row, j ∈ ind_1) →
      (subSamplingInner R n_objects ind_1 ind_0 cp st p_1 p_0 idx).1.length =
          idx.length + cp.length ∧
      ∀ row ∈ (subSamplingInner R n_objects ind_1 ind_0 cp st p_1 p_0
          idx).1, row.length = n_objects ∧ ∃ j ∈ row, j ∈ ind_1 := by
  intro cp
  induction cp with
  | nil =>
      intro st p_1 p_0 idx _ hacc
      exact ⟨by simp [subSamplingInner], hacc⟩
  | cons c cp ih =>
      intro st p_1 p_0 idx hcp hacc
      obtain ⟨hc1, hcle, hcn⟩ := hcp c (by simp)
      obtain ⟨hV1, hV2, hV3, hV4, hV5⟩ := hR
      have hunf : subSamplingInner R n_objects ind_1 ind_0 (c :: cp) st p_1
          p_0 idx =
          subSamplingInner R n_objects ind_1 ind_0 cp
            (R.shuffle
              (if ind_0.length < n_objects - c then
                R.choiceP (R.choiceP st ind_1.length c false p_1).2
                  ind_0.length (n_objects - c) true p_0
              else
                R.choiceP (R.choiceP st ind_1.length c false p_1).2
                  ind_0.length (n_objects - c) false p_0).2
              (fancyIndex ind_1 0 (R.choiceP st ind_1.length c false p_1).1 ++
                fancyIndex ind_0 0
                  (if ind_0.length < n_objects - c then
                    R.choiceP (R.choiceP st ind_1.length c false p_1).2
                      ind_0.length (n_objects - c) true p_0
                  else
                    R.choiceP (R.choiceP st ind_1.length c false p_1).2
                      ind_0.length (n_objects - c) false p_0).1)).2
            (renorm (scaleAt p_1 (R.choiceP st ind_1.length c false p_1).1))
            (renorm (scaleAt
              (renorm (scaleAt p_0
                (if ind_0.length < n_objects - c then
                  R.choiceP (R.choiceP st ind_1.length c false p_1).2
                    ind_0.length (n_objects - c) true p_0
                else
                  R.choiceP (R.choiceP st ind_1.length c false p_1).2
                    ind_0.length (n_objects - c) false p_0).1))
              (if ind_0.length < n_objects - c then
                R.choiceP (R.choiceP st ind_1.length c false p_1).2
                  ind_0.length (n_objects - c) true p_0
              else
                R.choiceP (R.choiceP st ind_1.length c false p_1).2
                  ind_0.length (n_objects - c) false p_0).1))
            (idx ++
              [(R.shuffle
                (if ind_0.length < n_objects - c then
                  R.choiceP (R.choiceP st ind_1.length c false p_1).2
                    ind_0.length (n_objects - c) true p_0
                else
                  R.choiceP (R.choiceP st ind_1.length c false p_1).2
                    ind_0.length (n_objects - c) false p_0).2
                (fancyIndex ind_1 0
                    (R.choiceP st ind_1.length c false p_1).1 ++
                  fancyIndex ind_0 0
                    (if ind_0.length < n_objects - c then
                      R.choiceP (R.choiceP st ind_1.length c false p_1).2
                        ind_0.length (n_objects - c) true p_0
                    else
                      R.choiceP (R.choiceP st ind_1.length c false p_1).2
                        ind_0.length (n_objects - c) false p_0).1)).1]) :=
        rfl
      obtain ⟨hplen, hpnd, hpmem⟩ :=
        hV4 st ind_1.length c p_1 h1 hcle
      have hneg :
          (if ind_0.length < n_objects - c then
            R.choiceP (R.choiceP st ind_1.length c false p_1).2 ind_0.length
              (n_objects - c) true p_0
          else
            R.choiceP (R.choiceP st ind_1.length c false p_1).2 ind_0.length
              (n_objects - c) false p_0).1.length = n_objects - c ∧
          ∀ v ∈ (if ind_0.length < n_objects - c then
            R.choiceP (R.choiceP st ind_1.length c false p_1).2 ind_0.length
              (n_objects - c) true p_0
          else
            R.choiceP (R.choiceP st ind_1.length c false p_1).2 ind_0.length
              (n_objects - c) false p_0).1, v < ind_0.length := by
        split_ifs with hbig
        · exact hV3 _ ind_0.length (n_objects - c) p_0 h0
        · obtain ⟨ha, _, hc⟩ := hV4 _ ind_0.length (n_objects - c) p_0 h0
            (not_lt.mp hbig)
          exact ⟨ha, hc⟩
      set pos := (R.choiceP st ind_1.length c false p_1).1 with hposdef
      set negDraw :=
        (if ind_0.length < n_objects - c then
          R.choiceP (R.choiceP st ind_1.length c false p_1).2 ind_0.length
            (n_objects - c) true p_0
        else
          R.choiceP (R.choiceP st ind_1.length c false p_1).2 ind_0.length
            (n_objects - c) false p_0) with hnegdef
      set iRow := fancyIndex ind_1 0 pos ++ fancyIndex ind_0 0 negDraw.1
        with hirowdef
      set srow := (R.shuffle negDraw.2 iRow).1 with hsrowdef
      have hperm : srow.Perm iRow := hV5 negDraw.2 iRow
      have hrowlen : srow.length = n_objects := by
        rw [hperm.length_eq, hirowdef]
        unfold fancyIndex
        rw [List.length_append, List.length_map, List.length_map, hplen,
          hneg.1]
        omega
      have hrowgood : ∃ j ∈ srow, j ∈ ind_1 := by
        have hpos_ne : pos ≠ [] := by
          intro hnil
          rw [hnil] at hplen
          simp at hplen
          omega
        obtain ⟨v, hv⟩ := List.exists_mem_of_ne_nil pos hpos_ne
        have hvlt : v < ind_1.length := hpmem v hv
        refine ⟨ind_1.getD v 0, ?_, ?_⟩
        · rw [hperm.mem_iff, hirowdef]
          refine List.mem_append_left _ ?_
          unfold fancyIndex
          exact List.mem_map.mpr ⟨v, hv, rfl⟩
        · rw [List.getD_eq_getElem ind_1 0 hvlt]
          exact List.getElem_mem hvlt
      rw [hunf]
      have key := ih (R.shuffle negDraw.2 iRow).2
        (renorm (scaleAt p_1 pos))
        (renorm (scaleAt (renorm (scaleAt p_0 negDraw.1)) negDraw.1))
        (idx ++ [srow])
        (fun d hd => hcp d (by simp [hd]))
        (fun row hrow => by
          rcases List.mem_append.mp hrow with hold | hnew
          · exact hacc row hold
          · rw [List.mem_singleton.mp hnew]
            exact ⟨hrowlen, hrowgood⟩)
      refine ⟨?_, key.2⟩
      rw [key.1, List.length_append]
      simp
      omega

lemma subSamplingRow_spec {S : Type} {R : RandomStateOracle S}
    (hR : R.Valid) (n_objects bucket_size : ℕ) (hobj : 0 < n_objects)
    {y : List ℕ} (hbin : ∀ v ∈ y, v = 0 ∨ v = 1) (hone : 1 ∈ y)
    (hylen : n_objects < y.length) (st : S) :
    (subSamplingRow R n_objects bucket_size y st).1.length = bucket_size ∧
    ∀ row ∈ (subSamplingRow R n_objects bucket_size y st).1,
      row.length = n_objects ∧ ∃ j ∈ row, y.getD j 0 = 1 := by
  obtain ⟨hV1, hV2, hV3, hV4, hV5⟩ := id hR
  have h1 : 0 < (npWhere y 1).length := npWhere_one_pos hone
  simp only [subSamplingRow]
  by_cases hlt : (npWhere y 1).length < n_objects
  · rw [if_pos hlt, if_pos hlt]
    have h0 : 0 < (npWhere y 0).length :=
      npWhere_zero_pos hbin (lt_trans hlt hylen)
    have hdraw : (if (npWhere y 1).length > bucket_size then
          R.choiceSimple st (npWhere y 1).length bucket_size false
        else R.choiceSimple st (npWhere y 1).length bucket_size
          true).1.length = bucket_size ∧
        ∀ v ∈ (if (npWhere y 1).length > bucket_size then
          R.choiceSimple st (npWhere y 1).length bucket_size false
        else R.choiceSimple st (npWhere y 1).length bucket_size true).1,
          v < (npWhere y 1).length := by
      split_ifs with hpb
      · obtain ⟨ha, _, hc⟩ := hV2 st _ bucket_size h1 (le_of_lt hpb)
        exact ⟨ha, hc⟩
      · exact hV1 st _ bucket_size h1
    have hcp : ∀ c ∈ (if (npWhere y 1).length > bucket_size then
          R.choiceSimple st (npWhere y 1).length bucket_size false
        else R.choiceSimple st (npWhere y 1).length bucket_size
          true).1.map (fun v => v + 1),
        1 ≤ c ∧ c ≤ (npWhere y 1).length ∧ c ≤ n_objects := by
      intro c hc
      obtain ⟨v, hv, rfl⟩ := List.mem_map.mp hc
      have := hdraw.2 v hv
      omega
    have hinner := subSamplingInner_spec hR h1 h0
      ((if (npWhere y 1).length > bucket_size then
          R.choiceSimple st (npWhere y 1).length bucket_size false
        else R.choiceSimple st (npWhere y 1).length bucket_size
          true).1.map (fun v => v + 1))
      (if (npWhere y 1).length > bucket_size then
          R.choiceSimple st (npWhere y 1).length bucket_size false
        else R.choiceSimple st (npWhere y 1).length bucket_size true).2
      (uniformP (npWhere y 1).length) (uniformP (npWhere y 0).length) []
      hcp (by intro row hrow; simp at hrow)
    refine ⟨?_, ?_⟩
    · rw [hinner.1, List.length_map, hdraw.1]
      simp
    · intro row hrow
      obtain ⟨hlen, j, hj, hj1⟩ := hinner.2 row hrow
      exact ⟨hlen, j, hj, (mem_npWhere.mp hj1).2⟩
  · rw [if_neg hlt]
    obtain ⟨hdlen, hdmem⟩ :=
      hV1 st (npWhere y 1).length (bucket_size * n_objects) h1
    have hflen : (fancyIndex (npWhere y 1) 0 (R.choiceSimple st
        (npWhere y 1).length (bucket_size * n_objects) true).1).length =
        bucket_size * n_objects := by
      unfold fancyIndex
      rw [List.length_map, hdlen]
    refine ⟨listChunks_length _ _ _, ?_⟩
    intro row hrow
    have hrlen : row.length = n_objects :=
      listChunks_row_length hobj bucket_size _
        (by rw [hflen, Nat.mul_comm]) row hrow
    refine ⟨hrlen, ?_⟩
    have hrne : row ≠ [] := by
      intro hnil
      rw [hnil] at hrlen
      simp at hrlen
      omega
    obtain ⟨j, hj⟩ := List.exists_mem_of_ne_nil row hrne
    have hjmem := listChunks_row_mem n_objects bucket_size _ row hrow j hj
    unfold fancyIndex at hjmem
    obtain ⟨v, hv, rfl⟩ := List.mem_map.mp hjmem
    have hvlt : v < (npWhere y 1).length := hdmem v hv
    have hjin : (npWhere y 1).getD v 0 ∈ npWhere y 1 := by
      rw [List.getD_eq_getElem _ 0 hvlt]
      exact List.getElem_mem hvlt
    exact ⟨_, hj, (mem_npWhere.mp hjin).2⟩

lemma subSamplingLoop_spec {S : Type} {R : RandomStateOracle S}
    (hR : R.Valid) (n_objects bucket_size : ℕ) (hobj : 0 < n_objects) :
    ∀ (pairs : List (List (List ℝ) × List ℕ)) (st : S),
      (∀ q ∈ pairs, (∀ v ∈ q.2, v = 0 ∨ v = 1) ∧ 1 ∈ q.2 ∧
        n_objects < q.2.length) →
      (subSamplingLoop R n_objects bucket_size pairs st).1.1.length =
          pairs.length * bucket_size ∧
      (subSamplingLoop R n_objects bucket_size pairs st).1.2.length =
          pairs.length * bucket_size ∧
      (∀ row ∈ (subSamplingLoop R n_objects bucket_size pairs st).1.2,
        row.length = n_objects ∧ (1 : ℕ) ∈ row) ∧
      ∀ row ∈ (subSamplingLoop R n_objects bucket_size pairs st).1.1,
        row.length = n_objects := by
  intro pairs
  induction pairs with
  | nil =>
      intro st _
      exact ⟨by simp [subSamplingLoop], by simp [subSamplingLoop],
        by simp [subSamplingLoop], by simp [subSamplingLoop]⟩
  | cons q rest ih =>
      rcases q with ⟨x, y⟩
      intro st hq
      obtain ⟨hbin, hone, hylen⟩ := hq (x, y) (by simp)
      have hrow := subSamplingRow_spec hR n_objects bucket_size hobj hbin
        hone hylen st
      have hrest := ih (subSamplingRow R n_objects bucket_size y st).2
        fun q2 hq2 => hq q2 (List.mem_cons_of_mem _ hq2)
      have hunf : subSamplingLoop R n_objects bucket_size ((x, y) :: rest)
          st =
          (((subSamplingRow R n_objects bucket_size y st).1.map
              (fancyIndex x []) ++
            (subSamplingLoop R n_objects bucket_size rest
              (subSamplingRow R n_objects bucket_size y st).2).1.1,
            (subSamplingRow R n_objects bucket_size y st).1.map
              (fancyIndex y 0) ++
            (subSamplingLoop R n_objects bucket_size rest
              (subSamplingRow R n_objects bucket_size y st).2).1.2),
            (subSamplingLoop R n_objects bucket_size rest
              (subSamplingRow R n_objects bucket_size y st).2).2) := rfl
      rw [hunf]
      refine ⟨?_, ?_, ?_, ?_⟩
      · simp only [List.length_append, List.length_map, hrow.1, hrest.1,
          List.length_cons]
        ring
      · simp only [List.length_append, List.length_map, hrow.1, hrest.2.1,
          List.length_cons]
        ring
      · intro row hrowm
        rcases List.mem_append.mp hrowm with hnew | hold
        · obtain ⟨irow, hirow, rfl⟩ := List.mem_map.mp hnew
          obtain ⟨hlen, j, hj, hj1⟩ := hrow.2 irow hirow
          refine ⟨by unfold fancyIndex; rw [List.length_map, hlen], ?_⟩
          unfold fancyIndex
          exact List.mem_map.mpr ⟨j, hj, hj1⟩
        · exact hrest.2.2.1 row hold
      · intro row hrowm
        rcases List.mem_append.mp hrowm with hnew | hold
        · obtain ⟨irow, hirow, rfl⟩ := List.mem_map.mp hnew
          unfold fancyIndex
          rw [List.length_map, (hrow.2 irow hirow).1]
        · exact hrest.2.2.2 row hold

/-- C4: for every query batch whose object count exceeds the configured
maximum and whose label rows are binary with at least one chosen object,
`sub_sampling` returns, per original query,
`bucket_size = X.shape[1] // max_number_of_objects` subsampled rows, each
containing exactly `max_number_of_objects` objects and at least one object
labeled chosen, for every behaviour of the numpy generator consistent with
the documented guarantees of `choice` and `shuffle`. -/
theorem C4_sub_sampling_bucket_rows {S : Type} (R : RandomStateOracle S)
    (hR : R.Valid) (n_objects_fit_ max_number_of_objects m : ℕ)
    (X : List (List (List ℝ))) (Y : List (List ℕ)) (st : S)
    (hmax : 0 < max_number_of_objects)
    (hgt : max_number_of_objects < n_objects_fit_)
    (hm : (X.headD []).length = m) (hfit : n_objects_fit_ = m)
    (hXY : X.length = Y.length)
    (hY : ∀ y ∈ Y, y.length = m ∧ (∀ v ∈ y, v = 0 ∨ v = 1) ∧ 1 ∈ y) :
    (sub_sampling R n_objects_fit_ max_number_of_objects X Y
        st).1.2.length = Y.length * (m / max_number_of_objects) ∧
    (sub_sampling R n_objects_fit_ max_number_of_objects X Y
        st).1.1.length = Y.length * (m / max_number_of_objects) ∧
    (∀ row ∈ (sub_sampling R n_objects_fit_ max_number_of_objects X Y
        st).1.2, row.length = max_number_of_objects ∧ (1 : ℕ) ∈ row) ∧
    ∀ row ∈ (sub_sampling R n_objects_fit_ max_number_of_objects X Y
        st).1.1, row.length = max_number_of_objects := by
  have hnle : ¬ n_objects_fit_ ≤ max_number_of_objects := not_le.mpr hgt
  unfold sub_sampling
  rw [if_neg hnle, hm]
  have hzlen : (X.zip Y).length = Y.length := by
    rw [List.length_zip, hXY, Nat.min_self]
  have hq : ∀ q ∈ X.zip Y, (∀ v ∈ q.2, v = 0 ∨ v = 1) ∧ 1 ∈ q.2 ∧
      max_number_of_objects < q.2.length := by
    rintro ⟨a, b⟩ hmem
    obtain ⟨_, hy⟩ := List.of_mem_zip hmem
    obtain ⟨hl, hb, ho⟩ := hY b hy
    refine ⟨hb, ho, ?_⟩
    show max_number_of_objects < b.length
    omega
  have hmain := subSamplingLoop_spec hR max_number_of_objects
    ((X.headD []).length / max_number_of_objects) hmax (X.zip Y) st hq
  rw [hzlen, hm] at hmain
  exact ⟨hmain.2.1, hmain.1, hmain.2.2.1, hmain.2.2.2⟩

/-- A concrete valid generator behaviour used to exercise the subsampling
theorem: it draws `0`s with replacement, `0, ..., k-1` without, and leaves
shuffled lists unchanged. -/
def idOracle : RandomStateOracle Unit where
  choiceSimple := fun st _ k rep =>
    (if rep then List.replicate k 0 else List.range k, st)
  choiceP := fun st _ k rep _ =>
    (if rep then List.replicate k 0 else List.range k, st)
  shuffle := fun st l => (l, st)

lemma idOracle_valid : idOracle.Valid := by
  refine ⟨?_, ?_, ?_, ?_, ?_⟩
  · intro st n k hn
    refine ⟨by simp [idOracle], ?_⟩
    intro v hv
    simp [idOracle, List.eq_of_mem_replicate hv]
    omega
  · intro st n k hn hk
    refine ⟨by simp [idOracle], by simp [idOracle, List.nodup_range], ?_⟩
    intro v hv
    simp [idOracle, List.mem_range] at hv
    omega
  · intro st n k p hn
    refine ⟨by simp [idOracle], ?_⟩
    intro v hv
    simp [idOracle, List.eq_of_mem_replicate hv]
    omega
  · intro st n k p hn hk
    refine ⟨by simp [idOracle], by simp [idOracle, List.nodup_range], ?_⟩
    intro v hv
    simp [idOracle, List.mem_range] at hv
    omega
  · intro st l
    simp [idOracle]

theorem C4_witness :
    idOracle.Valid ∧ (0 : ℕ) < 1 ∧ (1 : ℕ) < 2 ∧
    (([[[(0 : ℝ)], [1]]].headD []).length = 2) ∧
    ((sub_sampling idOracle 2 1 [[[(0 : ℝ)], [1]]] [[1, 0]] ()).1.2.length =
        [[1, 0]].length * (2 / 1) ∧
      (sub_sampling idOracle 2 1 [[[(0 : ℝ)], [1]]] [[1, 0]]
          ()).1.1.length = [[1, 0]].length * (2 / 1) ∧
      (∀ row ∈ (sub_sampling idOracle 2 1 [[[(0 : ℝ)], [1]]] [[1, 0]]
          ()).1.2, row.length = 1 ∧ (1 : ℕ) ∈ row) ∧
      ∀ row ∈ (sub_sampling idOracle 2 1 [[[(0 : ℝ)], [1]]] [[1, 0]]
          ()).1.1, row.length = 1) :=
  ⟨idOracle_valid, by norm_num, by norm_num, by simp,
    C4_sub_sampling_bucket_rows idOracle idOracle_valid 2 1 2
      [[[(0 : ℝ)], [1]]] [[1, 0]] () (by norm_num) (by norm_num) (by simp)
      rfl (by simp) (by decide)⟩

end CSRank
